import Mathlib

/-!
Verification of the time-stepping orchestration layer of the FBPIC
simulation driver (`fbpic/main.py`).

The development shallowly embeds the orchestration code:

* the exchange-period derivation and its validation in `Simulation.__init__`
  (lines 220-242 of `main.py`);
* the registration of the comoving parameters (lines 197-201);
* the grid-snapping helper `adapt_to_grid` (lines 612-667);
* the deposition protocol `Simulation.deposit` (lines 466-516);
* the Galilean boundary shift `Simulation.shift_galilean_boundaries`
  (lines 518-535);
* the per-timestep state machine `Simulation.step` (lines 292-464),
  modelled as a state transformer together with an event trace recording
  the collaborator calls the orchestrator issues, in program order.

Real-number arithmetic of the source is modelled with `ℚ`; Python's `int()`
conversion (truncation towards zero) is modelled by `int_trunc`.
Collaborator kernels (`Fields`, `Particles`, `BoundaryCommunicator`, ...)
live outside the repository slice under verification; per the specification
they mutate field-value arrays and particle data but not the orchestrator's
counters nor the grids' boundary markers, so they appear in the embedding
as trace events (plus explicit oracles for the moving window's effects).
-/

namespace FBPic

/-!
### Definitions: the shallow embedding of the orchestration layer
-/

/-- Speed of light in vacuum (`scipy.constants.c`), in m/s. -/
def c_light : ℚ := 299792458

/-- Python's `int()` conversion on a real number: truncation towards zero. -/
def int_trunc (q : ℚ) : ℤ := if 0 ≤ q then ⌊q⌋ else ⌈q⌉

/-- Minimum of a list of rationals (`numpy.ndarray.min` on a nonempty array);
the value on `[]` is irrelevant (numpy raises there). -/
def listMin (l : List ℚ) : ℚ := l.foldl min (l.headD 0)

/-- Maximum of a list of rationals (`numpy.ndarray.max` on a nonempty array). -/
def listMax (l : List ℚ) : ℚ := l.foldl max (l.headD 0)

/-- Maximum number of cells a particle can travel in one timestep,
with the safety factor of 2 (line 225 of `main.py`). -/
def cells_per_step (dt zmin zmax : ℚ) (Nz : ℕ) : ℚ :=
  2 * c_light * dt / ((zmax - zmin) / (Nz : ℚ))

/-- The message of the `ValueError` raised when the guard region is
too small (lines 237-239 of `main.py`). -/
def guard_error : String :=
  "Guard region size is too small for chosen timestep."

/-- Embedding of the exchange-period initialization in `Simulation.__init__`
(lines 220-242 of `main.py`): a user-supplied `exchange_period` is taken
as-is; otherwise the period is `int((n_guard-3)/cells_per_step)`, forced to
`1` for a single-process periodic run, and a `ValueError` is raised when the
resulting value is `< 1`. -/
def init_exchange_period (exchange_period : Option ℤ) (size : ℕ) (boundaries : String)
    (n_guard : ℕ) (dt zmin zmax : ℚ) (Nz : ℕ) : Except String ℤ :=
  match exchange_period with
  | some p => Except.ok p
  | none =>
    let ep : ℤ := int_trunc (((n_guard : ℚ) - 3) / cells_per_step dt zmin zmax Nz)
    let ep2 : ℤ := if size = 1 ∧ boundaries = "periodic" then 1 else ep
    if ep2 < 1 then Except.error guard_error else Except.ok ep2

/-- Embedding of the registration of the comoving parameters
(lines 197-201 of `main.py`): `use_galilean` is forced to `False`
when `v_comoving is None`. -/
def init_use_galilean (v_comoving : Option ℚ) (use_galilean : Bool) : Bool :=
  if v_comoving = none then false else use_galilean

/-- The gridpoints on which the particles should be loaded: the points of
`x` strictly inside the open interval `(a, b)` (line 659 of `main.py`). -/
def selectPoints (x : List ℚ) (a b : ℚ) : List ℚ :=
  x.filter (fun xi => decide (a < xi) && decide (xi < b))

/-- The grid step `dx = x[1] - x[0]` (line 645 of `main.py`); the Python
code assumes at least two gridpoints. -/
def gridDx (x : List ℚ) : ℚ := x.getD 1 0 - x.getD 0 0

/-- Lower clamp of `adapt_to_grid` (lines 648-649 of `main.py`):
do not load particles below the lower bound of the box. -/
def clampLo (x : List ℚ) (dx p_xmin : ℚ) : ℚ :=
  if p_xmin < listMin x - dx / 2 then listMin x - dx / 2 else p_xmin

/-- Upper clamp of `adapt_to_grid` (lines 655-656 of `main.py`):
do not load particles in the last `ncells_empty` upper cells. -/
def clampHi (x : List ℚ) (dx : ℚ) (ncells_empty : ℕ) (p_xmax : ℚ) : ℚ :=
  if p_xmax > listMax x + (1 / 2 - (ncells_empty : ℚ)) * dx then
    listMax x + (1 / 2 - (ncells_empty : ℚ)) * dx else p_xmax

/-- Embedding of `adapt_to_grid` (lines 612-667 of `main.py`). -/
def adapt_to_grid (x : List ℚ) (p_xmin p_xmax : ℚ) (p_nx : ℕ) (ncells_empty : ℕ) :
    ℚ × ℚ × ℕ :=
  let dx := gridDx x
  let q_xmin := clampLo x dx p_xmin
  let q_xmax := clampHi x dx ncells_empty p_xmax
  let x_load := selectPoints x q_xmin q_xmax
  let Npx := x_load.length * p_nx
  if 0 < Npx then (listMin x_load - dx / 2, listMax x_load + dx / 2, Npx)
  else (q_xmin, q_xmax, Npx)

/-- A uniformly spaced grid `x0, x0+dx, ..., x0+(n-1)*dx`; this is the shape
of the interpolation-grid coordinate array `interp[0].z` that the simulation
passes to `adapt_to_grid`. -/
def uniformGrid (x0 dx : ℚ) : ℕ → List ℚ
  | 0 => []
  | n + 1 => x0 :: uniformGrid (x0 + dx) dx n

/-- One collaborator call issued by `Simulation.deposit`. -/
inductive DepOp where
  | erase (k : String)
  | speciesDep (k : String)
  | antennaDep (k : String)
  | divideByVolume (k : String)
  | exchangeFields (k : String)
  | interp2spect (k : String)
  | filterSpect (k : String)
deriving DecidableEq

/-- The sequence of collaborator calls for a recognized field type:
erase, per-species deposit, per-antenna deposit, divide by cell volume,
guard-cell exchange, transform to spectral space, optional filter
(lines 484-516 of `main.py`). -/
def depositSeq (k fieldtype : String) (nSpecies nAntennas : ℕ) (fc : Bool) : List DepOp :=
  [DepOp.erase k] ++ List.replicate nSpecies (DepOp.speciesDep k)
    ++ List.replicate nAntennas (DepOp.antennaDep k)
    ++ [DepOp.divideByVolume k, DepOp.exchangeFields k, DepOp.interp2spect fieldtype]
    ++ (if fc then [DepOp.filterSpect fieldtype] else [])

/-- Embedding of `Simulation.deposit` (lines 466-516 of `main.py`): the
collaborator calls performed before returning or raising, and the raised
`ValueError` message if any. -/
def deposit (fieldtype : String) (nSpecies nAntennas : ℕ) (fc : Bool) :
    List DepOp × Option String :=
  if fieldtype = "rho_prev" ∨ fieldtype = "rho_next" then
    (depositSeq ("rho") fieldtype nSpecies nAntennas fc, none)
  else if fieldtype = "J" then
    (depositSeq ("J") fieldtype nSpecies nAntennas fc, none)
  else
    ([], some ("Unknown fieldtype: " ++ fieldtype))

/-- One azimuthal mode's interpolation grid, as seen by the orchestrator:
the boundary markers `zmin`/`zmax`, the coordinate array `z`, and `values`.
`values` is modelled from the spec: the per-mode field-value arrays
(`Er`, ..., `rho`) live in the `Fields` collaborator (not under `src/`);
they are bundled here as one abstract component so that theorems can state
that an operation leaves them untouched. -/
structure InterpGrid where
  zmin : ℚ
  zmax : ℚ
  z : List ℚ
  values : List (List ℚ)
deriving DecidableEq

/-- Shift one grid's boundary bookkeeping by `d`
(the loop body of `shift_galilean_boundaries`, lines 532-535 of `main.py`). -/
def shiftGrid (d : ℚ) (g : InterpGrid) : InterpGrid :=
  { g with zmin := g.zmin + d, zmax := g.zmax + d, z := g.z.map (fun zc => zc + d) }

/-- Embedding of `Simulation.shift_galilean_boundaries`
(lines 518-535 of `main.py`): every mode's `zmin`, `zmax` and coordinate
array are shifted by `v_comoving * 0.5 * dt`. -/
def shift_galilean_boundaries (v_comoving dt : ℚ) (interp : List InterpGrid) :
    List InterpGrid :=
  interp.map (shiftGrid (v_comoving * (1 / 2) * dt))

/-- The orchestrator-owned state that `Simulation.step` reads and mutates:
global counters, timing parameters, comoving parameters, the moving window's
`nz_inject` counter (`moving_win = some nzInject` when a window is attached),
the interpolation grids, and the sizes of the collaborator lists
(`ptcl`, `laser_antennas`, `external_fields`, `diags`). -/
structure SimState where
  time : ℚ
  iteration : ℕ
  dt : ℚ
  exchange_period : ℕ
  v_comoving : Option ℚ
  use_galilean : Bool
  moving_win : Option ℕ
  interp : List InterpGrid
  nSpecies : ℕ
  nAntennas : ℕ
  nExternal : ℕ
  nDiags : ℕ
deriving DecidableEq

/-- The boolean options of `Simulation.step` (line 292 of `main.py`). -/
structure StepFlags where
  correct_currents : Bool
  correct_divE : Bool
  use_true_rho : Bool
  move_positions : Bool
  move_momenta : Bool
deriving DecidableEq

/-- One collaborator call issued by the body of the timestep loop of
`Simulation.step`, in program order. -/
inductive Ev where
  | diagWrite (iteration : ℕ)
  | moveGrids
  | exchangeFieldsEB
  | exchangeParticles
  | resetNzInject
  | gather
  | applyExternal
  | markUnsorted
  | depositField (fieldtype : String)
  | ionize
  | pushP
  | halfPushX
  | antennaUpdateV (t : ℚ)
  | antennaHalfPushX
  | galileanShift
  | correctCurrents
  | dampGuard
  | interp2spectE
  | interp2spectB
  | fieldPush
  | correctDivE
  | spect2interpE
  | spect2interpB
deriving DecidableEq

/-- Calls issued by the first antenna loop (lines 411-413 of `main.py`):
for each antenna, `update_v(time + 0.5*dt)` then `halfpush_x(dt)`. -/
def antennaEvents1 (t : ℚ) : ℕ → List Ev
  | 0 => []
  | n + 1 => Ev.antennaUpdateV t :: Ev.antennaHalfPushX :: antennaEvents1 t n

/-- Calls issued by the second antenna loop (lines 426-427 of `main.py`):
for each antenna, `halfpush_x(dt)`. -/
def antennaEvents2 : ℕ → List Ev
  | 0 => []
  | n + 1 => Ev.antennaHalfPushX :: antennaEvents2 n

/-- The trace of collaborator calls issued by one iteration of the timestep
loop of `Simulation.step` (lines 334-453 of `main.py`), in program order.
`i_step` is the index of the iteration within the current `step(N)` call. -/
def stepTrace (fl : StepFlags) (i_step : ℕ) (s : SimState) : List Ev :=
  List.replicate s.nDiags (Ev.diagWrite s.iteration)
    ++ (if s.moving_win.isSome then [Ev.moveGrids] else [])
    ++ [Ev.exchangeFieldsEB]
    ++ (if s.iteration % s.exchange_period = 0 ∨ i_step = 0 then
          List.replicate s.nSpecies Ev.exchangeParticles
            ++ (if s.moving_win.isSome then [Ev.resetNzInject] else [])
        else [])
    ++ List.replicate s.nSpecies Ev.gather
    ++ List.replicate s.nExternal Ev.applyExternal
    ++ List.replicate s.nSpecies Ev.markUnsorted
    ++ [Ev.depositField ("rho_prev")]
    ++ List.replicate s.nSpecies Ev.ionize
    ++ (if fl.move_momenta then List.replicate s.nSpecies Ev.pushP else [])
    ++ (if fl.move_positions then List.replicate s.nSpecies Ev.halfPushX else [])
    ++ antennaEvents1 (s.time + 1 / 2 * s.dt) s.nAntennas
    ++ (if s.use_galilean then [Ev.galileanShift] else [])
    ++ [Ev.depositField ("J")]
    ++ (if fl.move_positions then List.replicate s.nSpecies Ev.halfPushX else [])
    ++ antennaEvents2 s.nAntennas
    ++ (if s.use_galilean then [Ev.galileanShift] else [])
    ++ [Ev.depositField ("rho_next")]
    ++ (if fl.correct_currents then [Ev.correctCurrents] else [])
    ++ [Ev.dampGuard, Ev.interp2spectE, Ev.interp2spectB, Ev.fieldPush]
    ++ (if fl.correct_divE then [Ev.correctDivE] else [])
    ++ [Ev.spect2interpE, Ev.spect2interpB]

/-- The orchestrator-state update performed by one iteration of the timestep
loop of `Simulation.step` (lines 334-453 of `main.py`):

* `move_grids` (line 356) is a `BoundaryCommunicator` call (not under
  `src/`); modelled from the spec: when a moving window is attached it
  translates the grid boundaries (oracle amount `ws`) and increments
  `nz_inject` (oracle amount `inj`);
* the particle-exchange block (lines 366-378) resets `nz_inject` to `0`
  when `iteration % exchange_period == 0 or i_step == 0` and a moving
  window is attached;
* the two Galilean shifts (lines 415-416 and 429-430) each move the grid
  boundaries by `v_comoving * 0.5 * dt`;
* the counters are incremented last (lines 452-453). -/
def stepNext (inj : ℕ) (ws : ℚ) (i_step : ℕ) (s : SimState) : SimState :=
  let movWin1 := s.moving_win.map (fun k => k + inj)
  let interp1 := if s.moving_win.isSome then s.interp.map (shiftGrid ws) else s.interp
  let movWin2 := if s.iteration % s.exchange_period = 0 ∨ i_step = 0 then
      movWin1.map (fun _ => 0) else movWin1
  let interp2 := if s.use_galilean then
      shift_galilean_boundaries (s.v_comoving.getD 0) s.dt
        (shift_galilean_boundaries (s.v_comoving.getD 0) s.dt interp1)
    else interp1
  { s with time := s.time + s.dt, iteration := s.iteration + 1,
           moving_win := movWin2, interp := interp2 }

/-- One iteration of the timestep loop of `Simulation.step`.  When
`use_galilean` is set but `v_comoving is None`, the Galilean branch would
evaluate `None * 0.5 * dt` and the step dies with a `TypeError`; this
failure is modelled as `none`. -/
def step_once (fl : StepFlags) (inj : ℕ) (ws : ℚ) (i_step : ℕ) (s : SimState) :
    Option (SimState × List Ev) :=
  if s.use_galilean = true ∧ s.v_comoving = none then none
  else some (stepNext inj ws i_step s, stepTrace fl i_step s)

/-- The timestep loop of `Simulation.step` (line 334 of `main.py`), running
the remaining number of iterations from loop index `i_step`, and
concatenating the traces.  `inj` and `ws` are the per-iteration oracles for
the moving window's external effects. -/
def step_loop (fl : StepFlags) (inj : ℕ → ℕ) (ws : ℕ → ℚ) :
    ℕ → ℕ → SimState → Option (SimState × List Ev)
  | 0, _, s => some (s, [])
  | n + 1, i, s =>
    match step_once fl (inj i) (ws i) i s with
    | none => none
    | some (s1, e1) =>
      match step_loop fl inj ws n (i + 1) s1 with
      | none => none
      | some (s2, e2) => some (s2, e1 ++ e2)

/-- Embedding of `Simulation.step(N)` (lines 292-464 of `main.py`):
`N` iterations of the loop body, starting at loop index `i_step = 0`. -/
def step (fl : StepFlags) (inj : ℕ → ℕ) (ws : ℕ → ℚ) (N : ℕ) (s : SimState) :
    Option (SimState × List Ev) :=
  step_loop fl inj ws N 0 s

/-- Spec-side wording of the lower clamp: `p_min` raised to at least
`min(x) - 0.5*dx`. -/
def specClampMin (x : List ℚ) (dx a : ℚ) : ℚ := max a (listMin x - dx / 2)

/-- Spec-side wording of the upper clamp: `p_max` lowered to at most
`max(x) + (0.5 - ncells_empty)*dx`. -/
def specClampMax (x : List ℚ) (dx : ℚ) (nce : ℕ) (b : ℚ) : ℚ :=
  min b (listMax x + (1 / 2 - (nce : ℚ)) * dx)

/-- Spec-side selection: the grid points strictly inside the open interval
bounded by the two clamped bounds. -/
def specSelect (x : List ℚ) (dx a b : ℚ) (nce : ℕ) : List ℚ :=
  selectPoints x (specClampMin x dx a) (specClampMax x dx nce b)

/-- A small concrete orchestrator state: one species, one antenna, a moving
window with `nz_inject = 0`, no Galilean frame. -/
def sampleState : SimState where
  time := 0
  iteration := 0
  dt := 1
  exchange_period := 4
  v_comoving := none
  use_galilean := false
  moving_win := some 0
  interp := []
  nSpecies := 1
  nAntennas := 1
  nExternal := 0
  nDiags := 0

/-- The default flags of `Simulation.step`. -/
def sampleFlags : StepFlags where
  correct_currents := true
  correct_divE := false
  use_true_rho := false
  move_positions := true
  move_momenta := true

/-- The flags of `Simulation.step` with frozen particle positions. -/
def frozenFlags : StepFlags where
  correct_currents := true
  correct_divE := false
  use_true_rho := false
  move_positions := false
  move_momenta := true

/-- A concrete state with an active Galilean comoving frame
(`v_comoving = 2`) and one interpolation grid. -/
def galileanState : SimState where
  time := 0
  iteration := 0
  dt := 1
  exchange_period := 1
  v_comoving := some 2
  use_galilean := true
  moving_win := none
  interp := [⟨0, 10, [0, 1], [[5]]⟩]
  nSpecies := 1
  nAntennas := 0
  nExternal := 0
  nDiags := 0

/-!
### Theorems: the claims and their supporting lemmas
-/

lemma foldl_min_le_init (l : List ℚ) (a : ℚ) : l.foldl min a ≤ a := by
  induction l generalizing a with
  | nil => simp
  | cons x t ih => exact le_trans (ih (min a x)) (min_le_left a x)

lemma foldl_min_le_mem (l : List ℚ) (a y : ℚ) (hy : y ∈ l) : l.foldl min a ≤ y := by
  induction l generalizing a with
  | nil => cases hy
  | cons x t ih =>
    rcases List.mem_cons.mp hy with h | h
    · subst h
      exact le_trans (foldl_min_le_init t (min a y)) (min_le_right a y)
    · exact ih (min a x) h

lemma foldl_min_mem (l : List ℚ) (a : ℚ) : l.foldl min a = a ∨ l.foldl min a ∈ l := by
  induction l generalizing a with
  | nil => exact Or.inl rfl
  | cons x t ih =>
    rcases ih (min a x) with h | h
    · rcases min_choice a x with hm | hm
      · exact Or.inl (by rw [List.foldl_cons, h, hm])
      · exact Or.inr (by rw [List.foldl_cons, h, hm]; exact List.mem_cons_self x t)
    · exact Or.inr (List.mem_cons_of_mem x h)

lemma listMin_mem (l : List ℚ) (h : l ≠ []) : listMin l ∈ l := by
  cases l with
  | nil => exact absurd rfl h
  | cons x t =>
    rcases foldl_min_mem (x :: t) ((x :: t).headD 0) with h1 | h1
    · rw [listMin, h1]; exact List.mem_cons_self x t
    · exact h1

lemma listMin_le (l : List ℚ) (y : ℚ) (hy : y ∈ l) : listMin l ≤ y := by
  cases l with
  | nil => cases hy
  | cons x t => exact foldl_min_le_mem (x :: t) ((x :: t).headD 0) y hy

lemma le_foldl_max_init (l : List ℚ) (a : ℚ) : a ≤ l.foldl max a := by
  induction l generalizing a with
  | nil => simp
  | cons x t ih => exact le_trans (le_max_left a x) (ih (max a x))

lemma le_foldl_max_mem (l : List ℚ) (a y : ℚ) (hy : y ∈ l) : y ≤ l.foldl max a := by
  induction l generalizing a with
  | nil => cases hy
  | cons x t ih =>
    rcases List.mem_cons.mp hy with h | h
    · subst h
      exact le_trans (le_max_right a y) (le_foldl_max_init t (max a y))
    · exact ih (max a x) h

lemma foldl_max_mem (l : List ℚ) (a : ℚ) : l.foldl max a = a ∨ l.foldl max a ∈ l := by
  induction l generalizing a with
  | nil => exact Or.inl rfl
  | cons x t ih =>
    rcases ih (max a x) with h | h
    · rcases max_choice a x with hm | hm
      · exact Or.inl (by rw [List.foldl_cons, h, hm])
      · exact Or.inr (by rw [List.foldl_cons, h, hm]; exact List.mem_cons_self x t)
    · exact Or.inr (List.mem_cons_of_mem x h)

lemma listMax_mem (l : List ℚ) (h : l ≠ []) : listMax l ∈ l := by
  cases l with
  | nil => exact absurd rfl h
  | cons x t =>
    rcases foldl_max_mem (x :: t) ((x :: t).headD 0) with h1 | h1
    · rw [listMax, h1]; exact List.mem_cons_self x t
    · exact h1

lemma le_listMax (l : List ℚ) (y : ℚ) (hy : y ∈ l) : y ≤ listMax l := by
  cases l with
  | nil => cases hy
  | cons x t => exact le_foldl_max_mem (x :: t) ((x :: t).headD 0) y hy

lemma mem_selectPoints (x : List ℚ) (a b y : ℚ) :
    y ∈ selectPoints x a b ↔ y ∈ x ∧ a < y ∧ y < b := by
  simp [selectPoints, List.mem_filter]

lemma clampLo_ge (x : List ℚ) (dx a : ℚ) : listMin x - dx / 2 ≤ clampLo x dx a := by
  rw [clampLo]
  split_ifs with h
  · exact le_refl _
  · exact not_lt.mp h

lemma clampLo_id (x : List ℚ) (dx a : ℚ) (h : ¬ a < listMin x - dx / 2) :
    clampLo x dx a = a := if_neg h

lemma clampHi_le (x : List ℚ) (dx : ℚ) (nce : ℕ) (b : ℚ) :
    clampHi x dx nce b ≤ listMax x + (1 / 2 - (nce : ℚ)) * dx := by
  rw [clampHi]
  split_ifs with h
  · exact le_refl _
  · exact not_lt.mp h

lemma clampHi_id (x : List ℚ) (dx : ℚ) (nce : ℕ) (b : ℚ)
    (h : ¬ b > listMax x + (1 / 2 - (nce : ℚ)) * dx) : clampHi x dx nce b = b := if_neg h

lemma mem_uniformGrid (x0 dx : ℚ) (n : ℕ) (y : ℚ) :
    y ∈ uniformGrid x0 dx n ↔ ∃ i : ℕ, i < n ∧ y = x0 + (i : ℚ) * dx := by
  induction n generalizing x0 with
  | zero => simp [uniformGrid]
  | succ m ih =>
    rw [uniformGrid, List.mem_cons, ih (x0 + dx)]
    constructor
    · rintro (rfl | ⟨i, hi, rfl⟩)
      · exact ⟨0, Nat.succ_pos m, by ring⟩
      · exact ⟨i + 1, Nat.succ_lt_succ hi, by push_cast; ring⟩
    · rintro ⟨i, hi, rfl⟩
      cases i with
      | zero => exact Or.inl (by push_cast; ring)
      | succ j =>
        exact Or.inr ⟨j, Nat.lt_of_succ_lt_succ hi, by push_cast; ring⟩

/-- C1: when no explicit `exchange_period` is supplied and either
`boundaries != 'periodic'` or the number of processes is `> 1`,
`Simulation.__init__` sets
`exchange_period = floor((n_guard-3)/(2*c*dt/((zmax-zmin)/Nz)))` (on the
post-domain-division `zmin`, `zmax`, `Nz`), and raises a `ValueError` at
construction whenever this computed value is `< 1`. -/
theorem exchange_period_formula (size : ℕ) (boundaries : String) (n_guard : ℕ)
    (dt zmin zmax : ℚ) (Nz : ℕ)
    (hb : boundaries ≠ "periodic" ∨ 1 < size)
    (hdt : 0 < dt) (hz : zmin < zmax) (hNz : 0 < Nz) :
    (1 ≤ ⌊((n_guard : ℚ) - 3) / cells_per_step dt zmin zmax Nz⌋ →
      init_exchange_period none size boundaries n_guard dt zmin zmax Nz =
        Except.ok ⌊((n_guard : ℚ) - 3) / cells_per_step dt zmin zmax Nz⌋) ∧
    (⌊((n_guard : ℚ) - 3) / cells_per_step dt zmin zmax Nz⌋ < 1 →
      init_exchange_period none size boundaries n_guard dt zmin zmax Nz =
        Except.error guard_error) := by
  have hcond : ¬(size = 1 ∧ boundaries = "periodic") := by
    rintro ⟨h1, h2⟩
    rcases hb with h | h
    · exact h h2
    · omega
  set q : ℚ := ((n_guard : ℚ) - 3) / cells_per_step dt zmin zmax Nz with hq
  constructor
  · intro h1
    have hq1 : (1 : ℚ) ≤ q := by exact_mod_cast Int.le_floor.mp h1
    have htr : int_trunc q = ⌊q⌋ := if_pos (le_trans zero_le_one hq1)
    simp only [init_exchange_period, if_neg hcond, htr]
    rw [if_neg (not_lt.mpr h1)]
  · intro h2
    have htr : int_trunc q < 1 := by
      by_cases h0 : 0 ≤ q
      · rw [int_trunc, if_pos h0]; exact h2
      · rw [int_trunc, if_neg h0]
        have : ⌈q⌉ ≤ 0 := Int.ceil_le.mpr (by exact_mod_cast le_of_lt (not_le.mp h0))
        omega
    simp only [init_exchange_period, if_neg hcond]
    rw [if_pos htr]

/-- Witness for C1, at the scenario of the spec:
`Nz=64, zmin=0, zmax=20e-6, n_guard=20, dt=1e-16` gives
`exchange_period = floor(17/0.19187) = 88`. -/
theorem exchange_period_formula_witness :
    init_exchange_period none 1 ("open") 20 (1 / 10000000000000000) 0 (1 / 50000) 64 =
      Except.ok 88 := by
  have h := exchange_period_formula 1 ("open") 20 (1 / 10000000000000000) 0 (1 / 50000) 64
    (Or.inl (by decide)) (by norm_num) (by norm_num) (by norm_num)
  have h88 : ⌊(((20 : ℕ) : ℚ) - 3) /
      cells_per_step (1 / 10000000000000000) 0 (1 / 50000) 64⌋ = (88 : ℤ) := by
    rw [Int.floor_eq_iff]
    norm_num [cells_per_step, c_light]
  rw [h.1 (by rw [h88]; norm_num), h88]

/-- C6: on exactly one process with periodic boundaries, the derived
`exchange_period` equals `1` regardless of the raw value of the formula,
and construction never fails (even when the raw value is `< 1`). -/
theorem exchange_period_single_periodic (n_guard : ℕ) (dt zmin zmax : ℚ) (Nz : ℕ) :
    init_exchange_period none 1 ("periodic") n_guard dt zmin zmax Nz = Except.ok 1 := by
  have hcond : (1 : ℕ) = 1 ∧ ("periodic" : String) = "periodic" := ⟨rfl, rfl⟩
  simp only [init_exchange_period, if_pos hcond]
  norm_num

/-- C3: for every `fieldtype` outside `{rho_prev, rho_next, J}`,
`Simulation.deposit` raises `Unknown fieldtype` and performs no collaborator
call before the error: no erase, deposit, divide, exchange, transform or
filter happens. -/
theorem deposit_unknown_fieldtype (fieldtype : String) (nSpecies nAntennas : ℕ)
    (fc : Bool)
    (h1 : fieldtype ≠ "rho_prev") (h2 : fieldtype ≠ "rho_next") (h3 : fieldtype ≠ "J") :
    deposit fieldtype nSpecies nAntennas fc =
      ([], some ("Unknown fieldtype: " ++ fieldtype)) := by
  simp [deposit, h1, h2, h3]

/-- Witness for C3 at the invalid field type `"rho"` (the interpolation-grid
quantity name, which is nevertheless not a valid deposition target). -/
theorem deposit_unknown_fieldtype_witness :
    deposit ("rho") 1 1 true = ([], some ("Unknown fieldtype: " ++ "rho")) :=
  deposit_unknown_fieldtype ("rho") 1 1 true (by decide) (by decide) (by decide)

lemma clampLo_eq_max (x : List ℚ) (dx a : ℚ) : clampLo x dx a = specClampMin x dx a := by
  rw [clampLo, specClampMin]
  rcases le_or_lt (listMin x - dx / 2) a with h | h
  · rw [if_neg (not_lt.mpr h), max_eq_left h]
  · rw [if_pos h, max_eq_right (le_of_lt h)]

lemma clampHi_eq_min (x : List ℚ) (dx : ℚ) (nce : ℕ) (b : ℚ) :
    clampHi x dx nce b = specClampMax x dx nce b := by
  rw [clampHi, specClampMax]
  rcases le_or_lt b (listMax x + (1 / 2 - (nce : ℚ)) * dx) with h | h
  · rw [if_neg (not_lt.mpr h), min_eq_left h]
  · rw [if_pos h, min_eq_right (le_of_lt h)]

/-- C7: on a strictly increasing grid, `adapt_to_grid` clamps the bounds
(up to at least `min(x)-0.5*dx`, down to at most
`max(x)+(0.5-ncells_empty)*dx`), selects the grid points strictly inside
the open interval of the clamped bounds, returns `#selected * p_nx`
particles, snaps the bounds to `min(selected)-0.5*dx` /
`max(selected)+0.5*dx` when the count is nonzero, and returns the clamped
bounds with zero particles when no point is selected. -/
theorem adapt_to_grid_spec (x0 x1 : ℚ) (rest : List ℚ) (a b : ℚ) (p_nx nce : ℕ)
    (hx : List.Chain' (fun u v => u < v) (x0 :: x1 :: rest)) :
    (adapt_to_grid (x0 :: x1 :: rest) a b p_nx nce).2.2 =
      (specSelect (x0 :: x1 :: rest) (x1 - x0) a b nce).length * p_nx ∧
    (0 < (specSelect (x0 :: x1 :: rest) (x1 - x0) a b nce).length * p_nx →
      adapt_to_grid (x0 :: x1 :: rest) a b p_nx nce =
        (listMin (specSelect (x0 :: x1 :: rest) (x1 - x0) a b nce) - (x1 - x0) / 2,
         listMax (specSelect (x0 :: x1 :: rest) (x1 - x0) a b nce) + (x1 - x0) / 2,
         (specSelect (x0 :: x1 :: rest) (x1 - x0) a b nce).length * p_nx)) ∧
    (specSelect (x0 :: x1 :: rest) (x1 - x0) a b nce = [] →
      adapt_to_grid (x0 :: x1 :: rest) a b p_nx nce =
        (specClampMin (x0 :: x1 :: rest) (x1 - x0) a,
         specClampMax (x0 :: x1 :: rest) (x1 - x0) nce b, 0)) := by
  have hgd : gridDx (x0 :: x1 :: rest) = x1 - x0 := rfl
  simp only [adapt_to_grid, hgd, clampLo_eq_max, clampHi_eq_min, specSelect]
  refine ⟨?_, ?_, ?_⟩
  · by_cases h : 0 < (selectPoints (x0 :: x1 :: rest)
        (specClampMin (x0 :: x1 :: rest) (x1 - x0) a)
        (specClampMax (x0 :: x1 :: rest) (x1 - x0) nce b)).length * p_nx
    · rw [if_pos h]
    · rw [if_neg h]
  · intro h
    rw [if_pos h]
  · intro h
    rw [h]
    simp

/-- Witness for C7 on the grid `[0, 1, 2]` with requested bounds
`[-10, 10]` and 2 particles per cell. -/
theorem adapt_to_grid_spec_witness :
    adapt_to_grid [0, 1, 2] (-10) 10 2 0 = (-(1 / 2), 5 / 2, 6) := by
  have h := adapt_to_grid_spec 0 1 [2] (-10) 10 2 0 (by norm_num [List.chain'_cons])
  rw [h.2.1 (by norm_num [specSelect, specClampMin, specClampMax, selectPoints,
    listMin, listMax, List.filter, List.foldl])]
  norm_num [specSelect, specClampMin, specClampMax, selectPoints,
    listMin, listMax, List.filter, List.foldl]

/-- C8 counterexample: `adapt_to_grid` is not idempotent on every strictly
increasing grid.  On `x = [0, 1, 1.2, 2]` (strictly increasing, but not
uniformly spaced, so `dx = x[1]-x[0] = 1` is not the local spacing), the
snapped lower bound `1.2 - 0.5 = 0.7` lies below the grid point `1`, which
a second application therefore also selects: the first application returns
`(0.7, 1.7, 1)` while re-applying to these bounds returns `(0.5, 1.7, 2)`. -/
theorem adapt_to_grid_not_idempotent :
    List.Chain' (fun u v => u < v) [(0 : ℚ), 1, 6 / 5, 2] ∧
    adapt_to_grid [(0 : ℚ), 1, 6 / 5, 2] (11 / 10) (19 / 10) 1 0 = (7 / 10, 17 / 10, 1) ∧
    adapt_to_grid [(0 : ℚ), 1, 6 / 5, 2] (7 / 10) (17 / 10) 1 0 = (1 / 2, 17 / 10, 2) := by
  refine ⟨by norm_num [List.chain'_cons], ?_, ?_⟩
  · norm_num [adapt_to_grid, gridDx, clampLo, clampHi, selectPoints, listMin, listMax,
      List.filter, List.foldl]
  · norm_num [adapt_to_grid, gridDx, clampLo, clampHi, selectPoints, listMin, listMax,
      List.filter, List.foldl]

lemma int_step_nonneg (k : ℤ) (dx : ℚ) (hdx : 0 < dx) (h : -(dx / 2) < (k : ℚ) * dx) :
    0 ≤ (k : ℚ) * dx := by
  rcases le_or_lt 0 k with hk | hk
  · have hk0 : (0 : ℚ) ≤ (k : ℚ) := by exact_mod_cast hk
    exact mul_nonneg hk0 hdx.le
  · have hkZ : k ≤ -1 := by omega
    have hk1 : (k : ℚ) ≤ -1 := by exact_mod_cast hkZ
    have := mul_le_mul_of_nonneg_right hk1 hdx.le
    linarith

lemma int_step_nonpos (k : ℤ) (dx : ℚ) (hdx : 0 < dx) (h : (k : ℚ) * dx < dx / 2) :
    (k : ℚ) * dx ≤ 0 := by
  rcases le_or_lt k 0 with hk | hk
  · have hk0 : (k : ℚ) ≤ 0 := by exact_mod_cast hk
    exact mul_nonpos_iff.mpr (Or.inr ⟨hk0, hdx.le⟩)
  · have hk1 : (1 : ℚ) ≤ (k : ℚ) := by exact_mod_cast hk
    have := mul_le_mul_of_nonneg_right hk1 hdx.le
    linarith

lemma int_step_le_empty (k : ℤ) (nce : ℕ) (dx : ℚ) (hdx : 0 < dx)
    (h : (k : ℚ) * dx < (1 / 2 - (nce : ℚ)) * dx) : (k : ℚ) * dx ≤ (-(nce : ℚ)) * dx := by
  have hklt : (k : ℚ) < 1 / 2 - (nce : ℚ) := (mul_lt_mul_right hdx).mp h
  have hZ : k + (nce : ℤ) ≤ 0 := by
    by_contra hc
    push_neg at hc
    have h1 : (1 : ℚ) ≤ ((k + (nce : ℤ) : ℤ) : ℚ) := by exact_mod_cast hc
    push_cast at h1
    linarith
  have hle : (k : ℚ) ≤ -(nce : ℚ) := by
    have h0 : ((k + (nce : ℤ) : ℤ) : ℚ) ≤ 0 := by exact_mod_cast hZ
    push_cast at h0
    linarith
  exact mul_le_mul_of_nonneg_right hle hdx.le

/-- C8 (amended): `adapt_to_grid` is idempotent on uniformly spaced strictly
increasing grids — the grids the simulation actually passes to it —
re-applying it to its own snapped bounds returns the same bounds and the
same particle count. -/
theorem adapt_to_grid_idem_uniform (x0 dx : ℚ) (n : ℕ) (a b : ℚ) (p_nx nce : ℕ)
    (hn : 2 ≤ n) (hdx : 0 < dx) :
    adapt_to_grid (uniformGrid x0 dx n)
        (adapt_to_grid (uniformGrid x0 dx n) a b p_nx nce).1
        (adapt_to_grid (uniformGrid x0 dx n) a b p_nx nce).2.1 p_nx nce =
      adapt_to_grid (uniformGrid x0 dx n) a b p_nx nce := by
  have hgd : gridDx (uniformGrid x0 dx n) = dx := by
    obtain ⟨m, rfl⟩ : ∃ m, n = m + 2 := ⟨n - 2, by omega⟩
    show (uniformGrid x0 dx (m + 2)).getD 1 0 - (uniformGrid x0 dx (m + 2)).getD 0 0 = dx
    rw [uniformGrid, uniformGrid]
    simp
  have hspace : ∀ y ∈ uniformGrid x0 dx n, ∀ z ∈ uniformGrid x0 dx n,
      ∃ k : ℤ, y - z = (k : ℚ) * dx := by
    intro y hy z hz
    obtain ⟨i, _, rfl⟩ := (mem_uniformGrid x0 dx n y).mp hy
    obtain ⟨j, _, rfl⟩ := (mem_uniformGrid x0 dx n z).mp hz
    refine ⟨(i : ℤ) - (j : ℤ), by push_cast; ring⟩
  obtain ⟨x, hxdef⟩ : ∃ x, uniformGrid x0 dx n = x := ⟨_, rfl⟩
  rw [hxdef] at hgd hspace ⊢
  obtain ⟨aC, haC⟩ : ∃ aC, clampLo x dx a = aC := ⟨_, rfl⟩
  obtain ⟨bC, hbC⟩ : ∃ bC, clampHi x dx nce b = bC := ⟨_, rfl⟩
  obtain ⟨sel, hsel⟩ : ∃ sel, selectPoints x aC bC = sel := ⟨_, rfl⟩
  have hfst : adapt_to_grid x a b p_nx nce =
      if 0 < sel.length * p_nx then
        (listMin sel - dx / 2, listMax sel + dx / 2, sel.length * p_nx)
      else (aC, bC, sel.length * p_nx) := by
    simp only [adapt_to_grid, hgd, haC, hbC, hsel]
  by_cases hpos : 0 < sel.length * p_nx
  · -- nonzero particle count: bounds snapped to the selected points
    rw [if_pos hpos] at hfst
    have hselne : sel ≠ [] := by
      intro h0
      rw [h0] at hpos
      simp at hpos
    have hsub : ∀ y ∈ sel, y ∈ x ∧ aC < y ∧ y < bC := by
      intro y hy
      rw [← hsel] at hy
      exact (mem_selectPoints x aC bC y).mp hy
    have hmmem := listMin_mem sel hselne
    have hMmem := listMax_mem sel hselne
    have hmx : listMin sel ∈ x := (hsub _ hmmem).1
    have hMx : listMax sel ∈ x := (hsub _ hMmem).1
    have hmaC : aC < listMin sel := (hsub _ hmmem).2.1
    have hMbC : listMax sel < bC := (hsub _ hMmem).2.2
    have hxne : x ≠ [] := by
      intro h0
      rw [h0] at hmx
      cases hmx
    -- the second lower clamp is the identity
    have hlo2 : clampLo x dx (listMin sel - dx / 2) = listMin sel - dx / 2 := by
      apply clampLo_id
      have := listMin_le x (listMin sel) hmx
      intro hcon
      linarith
    -- the second upper clamp is the identity
    have hhi2 : clampHi x dx nce (listMax sel + dx / 2) = listMax sel + dx / 2 := by
      apply clampHi_id
      obtain ⟨k, hk⟩ := hspace (listMax sel) hMx (listMax x) (listMax_mem x hxne)
      have hMlt : listMax sel < listMax x + (1 / 2 - (nce : ℚ)) * dx :=
        lt_of_lt_of_le hMbC (hbC ▸ clampHi_le x dx nce b)
      have hkdx : (k : ℚ) * dx < (1 / 2 - (nce : ℚ)) * dx := by linarith
      have := int_step_le_empty k nce dx hdx hkdx
      intro hcon
      linarith
    -- the second selection picks exactly the same points
    have hsel2 : selectPoints x (listMin sel - dx / 2) (listMax sel + dx / 2) = sel := by
      have hcongr : selectPoints x (listMin sel - dx / 2) (listMax sel + dx / 2) =
          selectPoints x aC bC := by
        rw [selectPoints, selectPoints]
        apply List.filter_congr
        intro y hy
        have hiff : (listMin sel - dx / 2 < y ∧ y < listMax sel + dx / 2) ↔
            (aC < y ∧ y < bC) := by
          constructor
          · rintro ⟨h1, h2⟩
            obtain ⟨k1, hk1⟩ := hspace y hy (listMin sel) hmx
            obtain ⟨k2, hk2⟩ := hspace y hy (listMax sel) hMx
            have hge : 0 ≤ (k1 : ℚ) * dx := int_step_nonneg k1 dx hdx (by linarith)
            have hle : (k2 : ℚ) * dx ≤ 0 := int_step_nonpos k2 dx hdx (by linarith)
            constructor
            · linarith
            · linarith
          · rintro ⟨h1, h2⟩
            have hy_sel : y ∈ sel := by
              rw [← hsel]
              exact (mem_selectPoints x aC bC y).mpr ⟨hy, h1, h2⟩
            have := listMin_le sel y hy_sel
            have := le_listMax sel y hy_sel
            constructor
            · linarith
            · linarith
        rw [← Bool.decide_and (listMin sel - dx / 2 < y) (y < listMax sel + dx / 2),
          ← Bool.decide_and (aC < y) (y < bC)]
        exact decide_eq_decide.mpr hiff
      rw [hcongr, hsel]
    rw [hfst]
    simp only [adapt_to_grid, hgd, hlo2, hhi2, hsel2]
    rw [if_pos hpos]
  · -- zero particle count: the clamped bounds are returned unchanged
    rw [if_neg hpos] at hfst
    have hlo2 : clampLo x dx aC = aC := by
      apply clampLo_id
      have h1 : listMin x - dx / 2 ≤ aC := haC ▸ clampLo_ge x dx a
      intro hcon
      linarith
    have hhi2 : clampHi x dx nce bC = bC := by
      apply clampHi_id
      have h1 : bC ≤ listMax x + (1 / 2 - (nce : ℚ)) * dx := hbC ▸ clampHi_le x dx nce b
      intro hcon
      linarith
    rw [hfst]
    simp only [adapt_to_grid, hgd, hlo2, hhi2, hsel]
    rw [if_neg hpos]

/-- Witness for C8 (amended) on the uniform grid `[0, 1, 2]`. -/
theorem adapt_to_grid_idem_uniform_witness :
    adapt_to_grid (uniformGrid 0 1 3)
        (adapt_to_grid (uniformGrid 0 1 3) (-1) (5 / 2) 2 0).1
        (adapt_to_grid (uniformGrid 0 1 3) (-1) (5 / 2) 2 0).2.1 2 0 =
      adapt_to_grid (uniformGrid 0 1 3) (-1) (5 / 2) 2 0 :=
  adapt_to_grid_idem_uniform 0 1 3 (-1) (5 / 2) 2 0 (by norm_num) (by norm_num)

lemma mem_ite_list (P : Prop) [Decidable P] (e : Ev) (l1 l2 : List Ev) :
    (e ∈ if P then l1 else l2) ↔ (P ∧ e ∈ l1) ∨ (¬P ∧ e ∈ l2) := by
  split_ifs with h <;> simp [h]

lemma count_ite_list (P : Prop) [Decidable P] (e : Ev) (l1 l2 : List Ev) :
    (if P then l1 else l2).count e = if P then l1.count e else l2.count e := by
  split_ifs <;> rfl

lemma mem_antennaEvents1 (t : ℚ) (n : ℕ) (e : Ev) :
    e ∈ antennaEvents1 t n ↔
      0 < n ∧ (e = Ev.antennaUpdateV t ∨ e = Ev.antennaHalfPushX) := by
  induction n with
  | zero => simp [antennaEvents1]
  | succ m ih =>
    rw [antennaEvents1]
    simp only [List.mem_cons, ih]
    constructor
    · rintro (rfl | rfl | ⟨_, h⟩)
      · exact ⟨Nat.succ_pos m, Or.inl rfl⟩
      · exact ⟨Nat.succ_pos m, Or.inr rfl⟩
      · exact ⟨Nat.succ_pos m, h⟩
    · rintro ⟨_, h | h⟩
      · exact Or.inl h
      · exact Or.inr (Or.inl h)

lemma mem_antennaEvents2 (n : ℕ) (e : Ev) :
    e ∈ antennaEvents2 n ↔ 0 < n ∧ e = Ev.antennaHalfPushX := by
  induction n with
  | zero => simp [antennaEvents2]
  | succ m ih =>
    rw [antennaEvents2]
    simp only [List.mem_cons, ih]
    constructor
    · rintro (rfl | ⟨_, h⟩)
      · exact ⟨Nat.succ_pos m, rfl⟩
      · exact ⟨Nat.succ_pos m, h⟩
    · rintro ⟨_, h⟩
      exact Or.inl h

lemma count_antennaEvents1_half (t : ℚ) (n : ℕ) :
    (antennaEvents1 t n).count Ev.antennaHalfPushX = n := by
  induction n with
  | zero => rfl
  | succ m ih => simp [antennaEvents1, List.count_cons, ih]

lemma count_antennaEvents2_half (n : ℕ) :
    (antennaEvents2 n).count Ev.antennaHalfPushX = n := by
  induction n with
  | zero => rfl
  | succ m ih => simp [antennaEvents2, List.count_cons, ih]

lemma count_antennaEvents1_other (t : ℚ) (n : ℕ) (e : Ev)
    (h1 : e ≠ Ev.antennaHalfPushX) (h2 : ∀ tq : ℚ, e ≠ Ev.antennaUpdateV tq) :
    (antennaEvents1 t n).count e = 0 := by
  induction n with
  | zero => rfl
  | succ m ih => simp [antennaEvents1, List.count_cons, ih, h1, h2 t]

lemma count_antennaEvents2_other (n : ℕ) (e : Ev) (h1 : e ≠ Ev.antennaHalfPushX) :
    (antennaEvents2 n).count e = 0 := by
  induction n with
  | zero => rfl
  | succ m ih => simp [antennaEvents2, List.count_cons, ih, h1]

lemma stepTrace_mem_exchangeParticles (fl : StepFlags) (i : ℕ) (s : SimState) :
    Ev.exchangeParticles ∈ stepTrace fl i s ↔
      (s.iteration % s.exchange_period = 0 ∨ i = 0) ∧ 0 < s.nSpecies := by
  simp [stepTrace, mem_ite_list, List.mem_replicate, mem_antennaEvents1,
    mem_antennaEvents2, Nat.pos_iff_ne_zero]

lemma stepTrace_mem_galileanShift (fl : StepFlags) (i : ℕ) (s : SimState) :
    Ev.galileanShift ∈ stepTrace fl i s ↔ s.use_galilean = true := by
  simp [stepTrace, mem_ite_list, List.mem_replicate, mem_antennaEvents1,
    mem_antennaEvents2]

lemma stepTrace_count_galileanShift (fl : StepFlags) (i : ℕ) (s : SimState) :
    (stepTrace fl i s).count Ev.galileanShift = if s.use_galilean then 2 else 0 := by
  simp only [stepTrace, List.count_append, count_ite_list]
  rw [count_antennaEvents1_other _ _ _ (by simp) (by simp),
    count_antennaEvents2_other _ _ (by simp)]
  simp [List.count_replicate, List.count_cons, List.count_nil]
  split_ifs <;> omega

lemma stepTrace_count_halfPushX (fl : StepFlags) (i : ℕ) (s : SimState) :
    (stepTrace fl i s).count Ev.halfPushX =
      if fl.move_positions then 2 * s.nSpecies else 0 := by
  simp only [stepTrace, List.count_append, count_ite_list]
  rw [count_antennaEvents1_other _ _ _ (by simp) (by simp),
    count_antennaEvents2_other _ _ (by simp)]
  simp [List.count_replicate, List.count_cons, List.count_nil]
  split_ifs <;> omega

lemma stepTrace_count_antennaHalfPushX (fl : StepFlags) (i : ℕ) (s : SimState) :
    (stepTrace fl i s).count Ev.antennaHalfPushX = 2 * s.nAntennas := by
  simp only [stepTrace, List.count_append, count_ite_list,
    count_antennaEvents1_half, count_antennaEvents2_half]
  simp [List.count_replicate, List.count_cons, List.count_nil]
  omega

lemma stepNext_iteration (inj : ℕ) (ws : ℚ) (i : ℕ) (s : SimState) :
    (stepNext inj ws i s).iteration = s.iteration + 1 := rfl

lemma stepNext_time (inj : ℕ) (ws : ℚ) (i : ℕ) (s : SimState) :
    (stepNext inj ws i s).time = s.time + s.dt := rfl

lemma stepNext_dt (inj : ℕ) (ws : ℚ) (i : ℕ) (s : SimState) :
    (stepNext inj ws i s).dt = s.dt := rfl

lemma stepNext_use_galilean (inj : ℕ) (ws : ℚ) (i : ℕ) (s : SimState) :
    (stepNext inj ws i s).use_galilean = s.use_galilean := rfl

lemma stepNext_v_comoving (inj : ℕ) (ws : ℚ) (i : ℕ) (s : SimState) :
    (stepNext inj ws i s).v_comoving = s.v_comoving := rfl

lemma stepNext_moving_win (inj : ℕ) (ws : ℚ) (i : ℕ) (s : SimState) :
    (stepNext inj ws i s).moving_win =
      if s.iteration % s.exchange_period = 0 ∨ i = 0 then s.moving_win.map (fun _ => 0)
      else s.moving_win.map (fun k => k + inj) := by
  rcases hsm : s.moving_win with _ | k <;> simp [stepNext, hsm] <;> split_ifs <;> simp

lemma stepNext_interp_of_no_window (inj : ℕ) (ws : ℚ) (i : ℕ) (s : SimState)
    (hw : s.moving_win = none) :
    (stepNext inj ws i s).interp =
      if s.use_galilean then
        shift_galilean_boundaries (s.v_comoving.getD 0) s.dt
          (shift_galilean_boundaries (s.v_comoving.getD 0) s.dt s.interp)
      else s.interp := by
  simp [stepNext, hw]

lemma shiftGrid_shiftGrid (d : ℚ) (g : InterpGrid) :
    shiftGrid d (shiftGrid d g) = shiftGrid (d + d) g := by
  simp only [shiftGrid, InterpGrid.mk.injEq]
  refine ⟨by ring, by ring, ?_, trivial⟩
  rw [List.map_map]
  apply List.map_congr_left
  intro zc _
  simp only [Function.comp_apply]
  ring

lemma shift_twice (v dtq : ℚ) (interp : List InterpGrid) :
    shift_galilean_boundaries v dtq (shift_galilean_boundaries v dtq interp) =
      interp.map (shiftGrid (v * dtq)) := by
  rw [shift_galilean_boundaries, shift_galilean_boundaries, List.map_map]
  apply List.map_congr_left
  intro g _
  simp only [Function.comp_apply, shiftGrid_shiftGrid]
  have : v * (1 / 2) * dtq + v * (1 / 2) * dtq = v * dtq := by ring
  rw [this]

lemma shift_galilean_boundaries_forall₂ (v dtq : ℚ) (interp : List InterpGrid) :
    List.Forall₂ (fun g g2 =>
        g2.zmin = g.zmin + v * (1 / 2) * dtq ∧
        g2.zmax = g.zmax + v * (1 / 2) * dtq ∧
        g2.z = g.z.map (fun zc => zc + v * (1 / 2) * dtq) ∧
        g2.values = g.values)
      interp (shift_galilean_boundaries v dtq interp) := by
  induction interp with
  | nil => exact List.Forall₂.nil
  | cons g t ih => exact List.Forall₂.cons ⟨rfl, rfl, rfl, rfl⟩ ih

/-- Both projections of a successful `step_once`. -/
lemma step_once_eq (fl : StepFlags) (inj : ℕ) (ws : ℚ) (i : ℕ) (s s2 : SimState)
    (evs : List Ev) (hstep : step_once fl inj ws i s = some (s2, evs)) :
    s2 = stepNext inj ws i s ∧ evs = stepTrace fl i s := by
  rw [step_once] at hstep
  split_ifs at hstep
  simp only [Option.some.injEq, Prod.mk.injEq] at hstep
  exact ⟨hstep.1.symm, hstep.2.symm⟩

lemma step_loop_ok (fl : StepFlags) (inj : ℕ → ℕ) (ws : ℕ → ℚ) (N : ℕ) :
    ∀ (i : ℕ) (s : SimState), ¬(s.use_galilean = true ∧ s.v_comoving = none) →
      ∃ s2 evs, step_loop fl inj ws N i s = some (s2, evs) ∧
        s2.iteration = s.iteration + N ∧ s2.time = s.time + (N : ℚ) * s.dt ∧
        s2.dt = s.dt ∧ s2.use_galilean = s.use_galilean ∧
        s2.v_comoving = s.v_comoving := by
  induction N with
  | zero =>
    intro i s _
    exact ⟨s, [], rfl, by omega, by push_cast; ring, rfl, rfl, rfl⟩
  | succ n ih =>
    intro i s hok
    have hstep : step_once fl (inj i) (ws i) i s =
        some (stepNext (inj i) (ws i) i s, stepTrace fl i s) := by
      rw [step_once, if_neg hok]
    obtain ⟨s2, evs, heq, hit, htime, hdt, hug, hv⟩ :=
      ih (i + 1) (stepNext (inj i) (ws i) i s) (by
        rw [stepNext_use_galilean, stepNext_v_comoving]
        exact hok)
    refine ⟨s2, stepTrace fl i s ++ evs, ?_, ?_, ?_, ?_, ?_, ?_⟩
    · rw [step_loop, hstep]
      dsimp only
      rw [heq]
    · rw [hit, stepNext_iteration]
      omega
    · rw [htime, stepNext_time, stepNext_dt]
      push_cast
      ring
    · rw [hdt, stepNext_dt]
    · rw [hug, stepNext_use_galilean]
    · rw [hv, stepNext_v_comoving]

lemma step_loop_no_galilean (fl : StepFlags) (inj : ℕ → ℕ) (ws : ℕ → ℚ) (N : ℕ) :
    ∀ (i : ℕ) (s : SimState), s.use_galilean = false →
      ∃ s2 evs, step_loop fl inj ws N i s = some (s2, evs) ∧
        Ev.galileanShift ∉ evs ∧ s2.use_galilean = false ∧
        (s.moving_win = none → s2.interp = s.interp ∧ s2.moving_win = none) := by
  induction N with
  | zero =>
    intro i s hug
    exact ⟨s, [], rfl, by simp, hug, fun h => ⟨rfl, h⟩⟩
  | succ n ih =>
    intro i s hug
    have hok : ¬(s.use_galilean = true ∧ s.v_comoving = none) := by
      rw [hug]
      simp
    have hstep : step_once fl (inj i) (ws i) i s =
        some (stepNext (inj i) (ws i) i s, stepTrace fl i s) := by
      rw [step_once, if_neg hok]
    obtain ⟨s2, evs, heq, hng, hug2, hmw⟩ :=
      ih (i + 1) (stepNext (inj i) (ws i) i s) (by rw [stepNext_use_galilean]; exact hug)
    refine ⟨s2, stepTrace fl i s ++ evs, ?_, ?_, hug2, ?_⟩
    · rw [step_loop, hstep]
      dsimp only
      rw [heq]
    · intro hmem
      rcases List.mem_append.mp hmem with h | h
      · have := (stepTrace_mem_galileanShift fl i s).mp h
        rw [hug] at this
        cases this
      · exact hng h
    · intro hw
      have hi : (stepNext (inj i) (ws i) i s).interp = s.interp := by
        rw [stepNext_interp_of_no_window _ _ _ _ hw, hug]
        simp
      have hmw1 : (stepNext (inj i) (ws i) i s).moving_win = none := by
        rw [stepNext_moving_win, hw]
        split_ifs <;> rfl
      obtain ⟨h1, h2⟩ := hmw hmw1
      exact ⟨h1.trans hi, h2⟩

/-- C2: `Simulation.step(N)` runs its loop exactly `N` times with no early
exit; afterwards `iteration` has increased by exactly `N` and `time` by
exactly `N*dt` (each single step increments them as its last action). -/
theorem step_advances_counters (fl : StepFlags) (inj : ℕ → ℕ) (ws : ℕ → ℚ) (N : ℕ)
    (s : SimState) (hok : ¬(s.use_galilean = true ∧ s.v_comoving = none)) :
    ∃ s2 evs, step fl inj ws N s = some (s2, evs) ∧
      s2.iteration = s.iteration + N ∧ s2.time = s.time + (N : ℚ) * s.dt := by
  obtain ⟨s2, evs, h1, h2, h3, _⟩ := step_loop_ok fl inj ws N 0 s hok
  exact ⟨s2, evs, h1, h2, h3⟩

/-- Witness for C2: three steps from the sample state. -/
theorem step_advances_counters_witness :
    ∃ s2 evs, step sampleFlags (fun _ => 0) (fun _ => 0) 3 sampleState = some (s2, evs) ∧
      s2.iteration = sampleState.iteration + 3 ∧
      s2.time = sampleState.time + ((3 : ℕ) : ℚ) * sampleState.dt :=
  step_advances_counters sampleFlags (fun _ => 0) (fun _ => 0) 3 sampleState
    (by simp [sampleState])

/-- C4: within one iteration of `Simulation.step`, particle exchange runs
iff `iteration % exchange_period == 0` or the iteration is the first of the
call; when exchange runs with a moving window attached, `nz_inject` is `0`
immediately after the iteration, and on any other iteration the orchestrator
does not reset it (the window may only have incremented it). -/
theorem particle_exchange_schedule (fl : StepFlags) (inj : ℕ) (ws : ℚ) (i : ℕ)
    (s s2 : SimState) (evs : List Ev)
    (hns : 0 < s.nSpecies) (hep : 0 < s.exchange_period)
    (hstep : step_once fl inj ws i s = some (s2, evs)) :
    (Ev.exchangeParticles ∈ evs ↔ (s.iteration % s.exchange_period = 0 ∨ i = 0)) ∧
    ((s.iteration % s.exchange_period = 0 ∨ i = 0) →
      s2.moving_win = s.moving_win.map (fun _ => 0)) ∧
    (¬(s.iteration % s.exchange_period = 0 ∨ i = 0) →
      s2.moving_win = s.moving_win.map (fun k => k + inj)) := by
  obtain ⟨hs2, hevs⟩ := step_once_eq fl inj ws i s s2 evs hstep
  rw [hs2, hevs]
  refine ⟨?_, ?_, ?_⟩
  · rw [stepTrace_mem_exchangeParticles]
    constructor
    · exact fun h => h.1
    · exact fun h => ⟨h, hns⟩
  · intro hc
    rw [stepNext_moving_win, if_pos hc]
  · intro hc
    rw [stepNext_moving_win, if_neg hc]

/-- Witness for C4 at the first iteration of a call on the sample state. -/
theorem particle_exchange_schedule_witness :
    (Ev.exchangeParticles ∈ stepTrace sampleFlags 0 sampleState ↔
      (sampleState.iteration % sampleState.exchange_period = 0 ∨ 0 = 0)) ∧
    ((sampleState.iteration % sampleState.exchange_period = 0 ∨ 0 = 0) →
      (stepNext 5 0 0 sampleState).moving_win = sampleState.moving_win.map (fun _ => 0)) ∧
    (¬(sampleState.iteration % sampleState.exchange_period = 0 ∨ 0 = 0) →
      (stepNext 5 0 0 sampleState).moving_win =
        sampleState.moving_win.map (fun k => k + 5)) :=
  particle_exchange_schedule sampleFlags 5 0 0 sampleState (stepNext 5 0 0 sampleState)
    (stepTrace sampleFlags 0 sampleState) (by norm_num [sampleState])
    (by norm_num [sampleState]) (by rw [step_once, if_neg (by simp [sampleState])])

/-- C5: each call of `shift_galilean_boundaries` adds exactly
`v_comoving*0.5*dt` to `zmin`, `zmax` and every element of the coordinate
array of each azimuthal-mode grid and changes nothing else (field values
untouched); over one full step with an active Galilean frame the routine
runs exactly twice, so the cumulative shift is `v_comoving*dt`. -/
theorem galilean_shift_effect (v dtq : ℚ) (interp : List InterpGrid)
    (fl : StepFlags) (inj : ℕ) (ws : ℚ) (i : ℕ) (s s2 : SimState) (evs : List Ev)
    (hg : s.use_galilean = true) (hv : s.v_comoving = some v) (hw : s.moving_win = none)
    (hstep : step_once fl inj ws i s = some (s2, evs)) :
    List.Forall₂ (fun g g2 =>
        g2.zmin = g.zmin + v * (1 / 2) * dtq ∧
        g2.zmax = g.zmax + v * (1 / 2) * dtq ∧
        g2.z = g.z.map (fun zc => zc + v * (1 / 2) * dtq) ∧
        g2.values = g.values)
      interp (shift_galilean_boundaries v dtq interp) ∧
    evs.count Ev.galileanShift = 2 ∧
    s2.interp = s.interp.map (shiftGrid (v * s.dt)) := by
  obtain ⟨hs2, hevs⟩ := step_once_eq fl inj ws i s s2 evs hstep
  rw [hs2, hevs]
  refine ⟨shift_galilean_boundaries_forall₂ v dtq interp, ?_, ?_⟩
  · rw [stepTrace_count_galileanShift, hg]
    rfl
  · rw [stepNext_interp_of_no_window _ _ _ _ hw, hg, if_pos rfl, hv]
    simp only [Option.getD_some]
    exact shift_twice v s.dt s.interp

/-- Witness for C5 on the concrete Galilean state. -/
theorem galilean_shift_effect_witness :
    List.Forall₂ (fun g g2 =>
        g2.zmin = g.zmin + 2 * (1 / 2) * 1 ∧
        g2.zmax = g.zmax + 2 * (1 / 2) * 1 ∧
        g2.z = g.z.map (fun zc => zc + 2 * (1 / 2) * 1) ∧
        g2.values = g.values)
      galileanState.interp (shift_galilean_boundaries 2 1 galileanState.interp) ∧
    (stepTrace sampleFlags 0 galileanState).count Ev.galileanShift = 2 ∧
    (stepNext 0 0 0 galileanState).interp =
      galileanState.interp.map (shiftGrid (2 * galileanState.dt)) :=
  galilean_shift_effect 2 1 galileanState.interp sampleFlags 0 0 0 galileanState
    (stepNext 0 0 0 galileanState) (stepTrace sampleFlags 0 galileanState)
    rfl rfl rfl (by rw [step_once, if_neg (by simp [galileanState])])

/-- C9 counterexample: with `move_positions=False`, the species half-pushes
are skipped but the antenna half-pushes are NOT skipped — the antenna loops
sit outside the `if move_positions` guard (lines 410-413 and 425-427 of
`main.py`), so a step on a state with one antenna still issues
`antenna.halfpush_x` calls. -/
theorem antenna_halfpush_not_skipped :
    frozenFlags.move_positions = false ∧
    step_once frozenFlags 0 0 0 sampleState =
      some (stepNext 0 0 0 sampleState, stepTrace frozenFlags 0 sampleState) ∧
    Ev.antennaHalfPushX ∈ stepTrace frozenFlags 0 sampleState ∧
    Ev.halfPushX ∉ stepTrace frozenFlags 0 sampleState := by
  refine ⟨rfl, by rw [step_once, if_neg (by simp [sampleState])], ?_, ?_⟩
  · rw [stepTrace]
    simp [sampleState, antennaEvents1]
  · intro hmem
    have h0 : (stepTrace frozenFlags 0 sampleState).count Ev.halfPushX = 0 := by
      rw [stepTrace_count_halfPushX]
      rfl
    have h1 : 0 < (stepTrace frozenFlags 0 sampleState).count Ev.halfPushX :=
      List.count_pos_iff_mem.mpr hmem
    omega

/-- C9 (amended): within each iteration of `Simulation.step`, the species
position half-pushes (to `t=(n+1/2)dt` and to `t=(n+1)dt`) run iff
`move_positions=True` — `2*nSpecies` half-push calls when enabled, none
when disabled — while the antenna half-pushes run unconditionally,
`2*nAntennas` calls per iteration regardless of `move_positions`. -/
theorem halfpush_schedule (fl : StepFlags) (inj : ℕ) (ws : ℚ) (i : ℕ)
    (s s2 : SimState) (evs : List Ev)
    (hstep : step_once fl inj ws i s = some (s2, evs)) :
    evs.count Ev.halfPushX = (if fl.move_positions then 2 * s.nSpecies else 0) ∧
    evs.count Ev.antennaHalfPushX = 2 * s.nAntennas := by
  obtain ⟨_, hevs⟩ := step_once_eq fl inj ws i s s2 evs hstep
  rw [hevs]
  exact ⟨stepTrace_count_halfPushX fl i s, stepTrace_count_antennaHalfPushX fl i s⟩

/-- Witness for C9 (amended), on the sample state with positions moving. -/
theorem halfpush_schedule_witness :
    (stepTrace sampleFlags 0 sampleState).count Ev.halfPushX =
      (if sampleFlags.move_positions then 2 * sampleState.nSpecies else 0) ∧
    (stepTrace sampleFlags 0 sampleState).count Ev.antennaHalfPushX =
      2 * sampleState.nAntennas :=
  halfpush_schedule sampleFlags 0 0 0 sampleState (stepNext 0 0 0 sampleState)
    (stepTrace sampleFlags 0 sampleState) (by rw [step_once, if_neg (by simp [sampleState])])

/-- C10: when `v_comoving is None`, `Simulation.__init__` forces
`use_galilean` to `False`, so the Galilean branch (which would evaluate
`None * 0.5 * dt`) is unreachable in every subsequent step: the run never
issues a Galilean boundary shift, never fails on that multiplication, and
(absent a moving window) never moves the grid boundary markers. -/
theorem no_galilean_without_comoving (ug : Bool) (fl : StepFlags) (inj : ℕ → ℕ)
    (ws : ℕ → ℚ) (N : ℕ) (s : SimState)
    (hv : s.v_comoving = none) (hug : s.use_galilean = init_use_galilean none ug) :
    init_use_galilean none ug = false ∧
    ∃ s2 evs, step fl inj ws N s = some (s2, evs) ∧ Ev.galileanShift ∉ evs ∧
      (s.moving_win = none → s2.interp = s.interp) := by
  have hfalse : init_use_galilean none ug = false := rfl
  obtain ⟨s2, evs, h1, h2, _, h4⟩ :=
    step_loop_no_galilean fl inj ws N 0 s (hug.trans hfalse)
  exact ⟨hfalse, s2, evs, h1, h2, fun hw => (h4 hw).1⟩

/-- Witness for C10: two steps from the sample state (constructed with
`v_comoving = None` and `use_galilean = True`, which `__init__` overrides). -/
theorem no_galilean_without_comoving_witness :
    init_use_galilean none true = false ∧
    ∃ s2 evs, step sampleFlags (fun _ => 0) (fun _ => 0) 2 sampleState = some (s2, evs) ∧
      Ev.galileanShift ∉ evs ∧
      (sampleState.moving_win = none → s2.interp = sampleState.interp) :=
  no_galilean_without_comoving true sampleFlags (fun _ => 0) (fun _ => 0) 2 sampleState
    rfl rfl

end FBPic
